import Mathlib

/-!
Verification of the Dev_Events data-access layer.

The development shallowly embeds the three source files:
  * `src/unnamed/part_000` (the Event model): `slugify`, `normalizeDate`,
    `normalizeTime` and the pre-validate hook `preValidate`;
  * `src/database/booking.model.ts`: the pre-save hook `preSave`;
  * `src/lib/mongodb.ts`: the memoized connection helper `connectToDatabase`,
    embedded as a small-step transition system over the process-wide cache.

Strings are embedded as `List Char`; JavaScript exceptions become
`Except String` results.
-/

namespace DevEvents

/-- The character class `[a-z0-9]` used by `slugify`'s regex
`/[^a-z0-9]+/g` (`src/unnamed/part_000`, line 40). -/
def isAlnum (c : Char) : Bool :=
  ('a' ≤ c && c ≤ 'z') || ('0' ≤ c && c ≤ '9')

/-- The whitespace class recognised by JavaScript `String.prototype.trim`
(ECMAScript WhiteSpace and LineTerminator code points; the common
ones are modelled). -/
def isJsWhitespace (c : Char) : Bool :=
  c = ' ' || c = '\t' || c = '\n' || c = '\r' ||
  c = '\x0b' || c = '\x0c' || c = '\u00A0' || c = '\uFEFF' ||
  c = '\u2028' || c = '\u2029'

/-- JavaScript `String.prototype.trim`: drop leading and trailing
whitespace. -/
def trim (l : List Char) : List Char :=
  ((l.dropWhile isJsWhitespace).reverse.dropWhile isJsWhitespace).reverse

/-- The replacement `/[^a-z0-9]+/g → '-'` of `slugify`
(`src/unnamed/part_000`, line 40): every maximal run of characters outside
`[a-z0-9]` becomes a single hyphen.  The boolean argument records whether
the previous character was part of such a run (i.e. whether the current
run has already emitted its hyphen). -/
def collapseRuns : List Char → Bool → List Char
  | [], _ => []
  | c :: cs, inRun =>
    if isAlnum c then c :: collapseRuns cs false
    else if inRun then collapseRuns cs true
    else '-' :: collapseRuns cs true

/-- The replacement `/^-+|-+$/g → ''` of `slugify`
(`src/unnamed/part_000`, line 41): strip leading and trailing hyphens. -/
def stripHyphens (l : List Char) : List Char :=
  ((l.dropWhile (fun c => c = '-')).reverse.dropWhile (fun c => c = '-')).reverse

/-- Function `slugify` (`src/unnamed/part_000`, lines 36–42): lowercase, trim,
collapse runs of non-alphanumerics into single hyphens, strip leading
and trailing hyphens. -/
def slugify (title : List Char) : List Char :=
  stripHyphens (collapseRuns (trim (title.map Char.toLower)) false)

lemma isAlnum_ne_hyphen {c : Char} (h : isAlnum c = true) : c ≠ '-' := by
  intro hc
  subst hc
  exact absurd h (by decide)

lemma not_ws_of_isAlnum {c : Char} (h : isAlnum c = true) : isJsWhitespace c = false := by
  cases hw : isJsWhitespace c
  · rfl
  · exfalso
    simp only [isJsWhitespace, Bool.or_eq_true, decide_eq_true_eq] at hw
    rcases hw with ((((((((h1 | h1) | h1) | h1) | h1) | h1) | h1) | h1) | h1) | h1 <;>
      subst h1 <;> exact absurd h (by decide)

lemma mem_dropWhile_of_mem {p : Char → Bool} {a : Char} :
    ∀ {l : List Char}, a ∈ l → p a = false → a ∈ l.dropWhile p := by
  intro l
  induction l with
  | nil => intro h _; exact absurd h (List.not_mem_nil a)
  | cons c cs ih =>
    intro h hpa
    rw [List.dropWhile_cons]
    by_cases hc : p c = true
    · rw [if_pos hc]
      apply ih _ hpa
      rcases List.mem_cons.mp h with rfl | h'
      · rw [hpa] at hc; exact absurd hc (by simp)
      · exact h'
    · rw [if_neg hc]
      exact h

lemma mem_trim {a : Char} {l : List Char} (h : a ∈ l) (hw : isJsWhitespace a = false) :
    a ∈ trim l := by
  unfold trim
  rw [List.mem_reverse]
  apply mem_dropWhile_of_mem _ hw
  rw [List.mem_reverse]
  exact mem_dropWhile_of_mem h hw

lemma mem_collapseRuns : ∀ (l : List Char) (b : Bool) (c : Char),
    c ∈ collapseRuns l b → isAlnum c = true ∨ c = '-' := by
  intro l
  induction l with
  | nil => intro b c h; simp [collapseRuns] at h
  | cons a as ih =>
    intro b c h
    by_cases ha : isAlnum a = true
    · rw [collapseRuns, if_pos ha] at h
      rcases List.mem_cons.mp h with rfl | h'
      · exact Or.inl ha
      · exact ih false c h'
    · rw [collapseRuns, if_neg ha] at h
      cases b with
      | true =>
        rw [if_pos rfl] at h
        exact ih true c h
      | false =>
        rw [if_neg (by simp)] at h
        rcases List.mem_cons.mp h with rfl | h'
        · exact Or.inr rfl
        · exact ih true c h'

lemma collapseRuns_inRun_head : ∀ (l : List Char) (c : Char) (cs : List Char),
    collapseRuns l true = c :: cs → isAlnum c = true := by
  intro l
  induction l with
  | nil => intro c cs h; simp [collapseRuns] at h
  | cons a as ih =>
    intro c cs h
    by_cases ha : isAlnum a = true
    · rw [collapseRuns, if_pos ha] at h
      rw [List.cons.injEq] at h
      rw [← h.1]
      exact ha
    · rw [collapseRuns, if_neg ha, if_pos rfl] at h
      exact ih c cs h

lemma collapseRuns_no_double : ∀ (l : List Char) (b : Bool),
    ¬ ∃ p q, collapseRuns l b = p ++ '-' :: '-' :: q := by
  intro l
  induction l with
  | nil => rintro b ⟨p, q, h⟩; simp [collapseRuns] at h
  | cons a as ih =>
    rintro b ⟨p, q, h⟩
    by_cases ha : isAlnum a = true
    · rw [collapseRuns, if_pos ha] at h
      cases p with
      | nil =>
        rw [List.nil_append, List.cons.injEq] at h
        exact isAlnum_ne_hyphen ha h.1
      | cons x xs =>
        rw [List.cons_append, List.cons.injEq] at h
        exact ih false ⟨xs, q, h.2⟩
    · rw [collapseRuns, if_neg ha] at h
      cases b with
      | true =>
        rw [if_pos rfl] at h
        exact ih true ⟨p, q, h⟩
      | false =>
        rw [if_neg (by simp)] at h
        cases p with
        | nil =>
          rw [List.nil_append, List.cons.injEq] at h
          have := collapseRuns_inRun_head as '-' q h.2
          exact absurd this (by decide)
        | cons x xs =>
          rw [List.cons_append, List.cons.injEq] at h
          exact ih true ⟨xs, q, h.2⟩

lemma exists_alnum_collapseRuns : ∀ (l : List Char) (b : Bool),
    (∃ a ∈ l, isAlnum a = true) → ∃ a ∈ collapseRuns l b, isAlnum a = true := by
  intro l
  induction l with
  | nil => rintro b ⟨a, ha, -⟩; exact absurd ha (List.not_mem_nil a)
  | cons c cs ih =>
    rintro b ⟨a, ha, halnum⟩
    by_cases hc : isAlnum c = true
    · refine ⟨c, ?_, hc⟩
      rw [collapseRuns, if_pos hc]
      exact List.mem_cons_self c _
    · have ha' : a ∈ cs := by
        rcases List.mem_cons.mp ha with rfl | h'
        · exact absurd halnum hc
        · exact h'
      obtain ⟨a', ha', halnum'⟩ := ih true ⟨a, ha', halnum⟩
      rw [collapseRuns, if_neg hc]
      cases b with
      | true => exact ⟨a', by rw [if_pos rfl]; exact ha', halnum'⟩
      | false =>
        refine ⟨a', ?_, halnum'⟩
        rw [if_neg (by simp)]
        exact List.mem_cons_of_mem '-' ha'

lemma dropWhile_head_false {p : Char → Bool} {l : List Char} {x : Char} {xs : List Char}
    (h : l.dropWhile p = x :: xs) : p x = false := by
  have := List.head?_dropWhile_not p l
  rw [h] at this
  simpa using this

lemma dropWhile_is_tail (p : Char → Bool) (l : List Char) :
    ∃ s, l = s ++ l.dropWhile p := by
  obtain ⟨s, hs⟩ := @List.dropWhile_suffix Char l p
  exact ⟨s, hs.symm⟩

/-- The stripped list `stripHyphens l` sits inside `l`: `l = s ++ stripHyphens l ++ t`. -/
lemma stripHyphens_eq_middle (l : List Char) :
    ∃ s t, l = s ++ stripHyphens l ++ t := by
  obtain ⟨s₀, hs₀⟩ := dropWhile_is_tail (fun c => c = '-') l
  obtain ⟨s₁, hs₁⟩ :=
    dropWhile_is_tail (fun c => c = '-') (l.dropWhile (fun c => c = '-')).reverse
  refine ⟨s₀, s₁.reverse, ?_⟩
  conv_lhs => rw [hs₀]
  have : l.dropWhile (fun c => c = '-') = stripHyphens l ++ s₁.reverse := by
    have := congrArg List.reverse hs₁
    rw [List.reverse_reverse, List.reverse_append] at this
    rw [this]
    rfl
  rw [this, List.append_assoc]

lemma stripHyphens_head_ne {l : List Char} {x : Char} {xs : List Char}
    (h : stripHyphens l = x :: xs) : x ≠ '-' := by
  obtain ⟨s₁, hs₁⟩ :=
    dropWhile_is_tail (fun c => c = '-') (l.dropWhile (fun c => c = '-')).reverse
  have hm : l.dropWhile (fun c => c = '-') = stripHyphens l ++ s₁.reverse := by
    have := congrArg List.reverse hs₁
    rw [List.reverse_reverse, List.reverse_append] at this
    rw [this]
    rfl
  rw [h, List.cons_append] at hm
  have := dropWhile_head_false hm
  simpa using this

lemma stripHyphens_last_ne (l : List Char) :
    ¬ ∃ p, stripHyphens l = p ++ ['-'] := by
  rintro ⟨p, hp⟩
  have hw : (l.dropWhile (fun c => c = '-')).reverse.dropWhile (fun c => c = '-') =
      '-' :: p.reverse := by
    have := congrArg List.reverse hp
    rw [List.reverse_append] at this
    unfold stripHyphens at this
    rw [List.reverse_reverse] at this
    simpa using this
  have := dropWhile_head_false hw
  simp at this

lemma mem_stripHyphens {a : Char} {l : List Char} (h : a ∈ l) (ha : a ≠ '-') :
    a ∈ stripHyphens l := by
  have hpa : (fun c => decide (c = '-')) a = false := by simpa using ha
  unfold stripHyphens
  rw [List.mem_reverse]
  apply mem_dropWhile_of_mem _ hpa
  rw [List.mem_reverse]
  exact mem_dropWhile_of_mem h hpa

/-- C2.  For every title containing at least one alphanumeric character
(in the sense of `slugify`'s `[a-z0-9]` class after lowercasing), the slug
is non-empty, consists only of lowercase alphanumerics and hyphens, has no
leading or trailing hyphen, and has no run of two or more consecutive
hyphens; `slugify "Hello, World!" = "hello-world"` and
`slugify "   ---   " = ""`. -/
theorem slugify_meets_spec :
    (∀ title : List Char, (title.map Char.toLower).any isAlnum = true →
      slugify title ≠ [] ∧
      (∀ c ∈ slugify title, isAlnum c = true ∨ c = '-') ∧
      (∀ q, slugify title ≠ '-' :: q) ∧
      (∀ p, slugify title ≠ p ++ ['-']) ∧
      (∀ p q, slugify title ≠ p ++ '-' :: '-' :: q)) ∧
    slugify ("Hello, World!".data) = "hello-world".data ∧
    slugify ("   ---   ".data) = [] := by
  refine ⟨?_, by decide, by decide⟩
  intro title h
  set m := collapseRuns (trim (title.map Char.toLower)) false with hm
  have hmem : ∃ a ∈ m, isAlnum a = true := by
    obtain ⟨a, ha, halnum⟩ := List.any_eq_true.mp h
    exact exists_alnum_collapseRuns _ false ⟨a, mem_trim ha (not_ws_of_isAlnum halnum), halnum⟩
  refine ⟨?_, ?_, ?_, ?_, ?_⟩
  · obtain ⟨a, ha, halnum⟩ := hmem
    intro hnil
    have : a ∈ stripHyphens m := mem_stripHyphens ha (isAlnum_ne_hyphen halnum)
    rw [show stripHyphens m = slugify title from rfl, hnil] at this
    exact List.not_mem_nil a this
  · intro c hc
    obtain ⟨s, t, hst⟩ := stripHyphens_eq_middle m
    have : c ∈ m := by
      rw [hst]
      exact List.mem_append.mpr (Or.inl (List.mem_append.mpr (Or.inr hc)))
    exact mem_collapseRuns _ false c this
  · intro q hq
    exact stripHyphens_head_ne hq rfl
  · intro p hp
    exact stripHyphens_last_ne m ⟨p, hp⟩
  · intro p q hpq
    obtain ⟨s, t, hst⟩ := stripHyphens_eq_middle m
    apply collapseRuns_no_double (trim (title.map Char.toLower)) false
    refine ⟨s ++ p, q ++ t, ?_⟩
    have hss : stripHyphens m = p ++ '-' :: '-' :: q := hpq
    rw [← hm, hst, hss]
    simp

/-- Witness for C2 at the concrete title `"Hello, World!"`. -/
theorem slugify_meets_spec_witness :
    slugify ("Hello, World!".data) ≠ [] ∧
    (∀ c ∈ slugify ("Hello, World!".data), isAlnum c = true ∨ c = '-') ∧
    (∀ q, slugify ("Hello, World!".data) ≠ '-' :: q) ∧
    (∀ p, slugify ("Hello, World!".data) ≠ p ++ ['-']) ∧
    (∀ p q, slugify ("Hello, World!".data) ≠ p ++ '-' :: '-' :: q) :=
  slugify_meets_spec.1 ("Hello, World!".data) (by decide)

instance {α β : Type} [DecidableEq α] [DecidableEq β] : DecidableEq (Except α β) :=
  fun a b =>
  match a, b with
  | .ok x, .ok y =>
    if h : x = y then .isTrue (by rw [h]) else .isFalse (by intro hc; cases hc; exact h rfl)
  | .error x, .error y =>
    if h : x = y then .isTrue (by rw [h]) else .isFalse (by intro hc; cases hc; exact h rfl)
  | .ok _, .error _ => .isFalse (by intro hc; cases hc)
  | .error _, .ok _ => .isFalse (by intro hc; cases hc)

/-- The digit class `\d` of the time regex (`src/unnamed/part_000`, line 65). -/
def isDigitChar (c : Char) : Bool := '0' ≤ c && c ≤ '9'

/-- Numeric value of a digit character. -/
def digitVal (c : Char) : Nat := c.toNat - '0'.toNat

/-- JavaScript `Number(...)` on a non-empty all-digit string
(`src/unnamed/part_000`, lines 71–72). -/
def strToNat (l : List Char) : Nat := l.foldl (fun acc c => 10 * acc + digitVal c) 0

/-- The anchored regex match `^(\d{1,2}):(\d{2})$`
(`src/unnamed/part_000`, line 65): returns the two capture groups. -/
def timeMatch : List Char → Option (List Char × List Char)
  | [a, b, c, d] =>
    if isDigitChar a && b = ':' && isDigitChar c && isDigitChar d then
      some ([a], [c, d])
    else none
  | [a, b, c, d, e] =>
    if isDigitChar a && isDigitChar b && c = ':' && isDigitChar d && isDigitChar e then
      some ([a, b], [d, e])
    else none
  | _ => none

/-- JavaScript `Number.prototype.toString` for naturals (decimal digits). -/
def natToChars (n : Nat) : List Char := Nat.toDigits 10 n

/-- JavaScript `String.prototype.padStart(2, '0')`
(`src/unnamed/part_000`, lines 78–79). -/
def padStart2 (l : List Char) : List Char :=
  if l.length < 2 then List.replicate (2 - l.length) '0' ++ l else l

/-- Body of `normalizeTime` after the initial `trim`
(`src/unnamed/part_000`, lines 65–81).  The source's `hours < 0` and
`minutes < 0` checks are vacuous (the captures are digit strings), so only
the upper bounds remain over `Nat`. -/
def normalizeTimeTrimmed (t : List Char) : Except String (List Char) :=
  match timeMatch t with
  | none => .error "Invalid event time format. Expected HH:MM"
  | some (hs, ms) =>
    let hours := strToNat hs
    let minutes := strToNat ms
    if 23 < hours || 59 < minutes then .error "Invalid event time value"
    else .ok (padStart2 (natToChars hours) ++ ':' :: padStart2 (natToChars minutes))

/-- Function `normalizeTime` (`src/unnamed/part_000`, lines 63–82): trim, match
`^(\d{1,2}):(\d{2})$`, range-check, left-pad to `HH:MM`. -/
def normalizeTime (l : List Char) : Except String (List Char) :=
  normalizeTimeTrimmed (trim l)

/-- Written from the claim's words: a two-digit decimal rendering. -/
def twoDigits (n : Nat) : List Char := [Nat.digitChar (n / 10), Nat.digitChar (n % 10)]

/-- Written from the claim's words: does the string match `H:MM` or
`HH:MM` (digits around a single colon)?  If so, return the hour and
minute values. -/
def hmmShape : List Char → Option (Nat × Nat)
  | [h, c, m1, m2] =>
    if isDigitChar h && c = ':' && isDigitChar m1 && isDigitChar m2 then
      some (digitVal h, 10 * digitVal m1 + digitVal m2)
    else none
  | [h1, h2, c, m1, m2] =>
    if isDigitChar h1 && isDigitChar h2 && c = ':' && isDigitChar m1 && isDigitChar m2 then
      some (10 * digitVal h1 + digitVal h2, 10 * digitVal m1 + digitVal m2)
    else none
  | _ => none

lemma strToNat_one (a : Char) : strToNat [a] = digitVal a := by
  simp [strToNat]

lemma strToNat_two (a b : Char) : strToNat [a, b] = 10 * digitVal a + digitVal b := by
  simp [strToNat]

lemma timeMatch_vs_hmmShape (t : List Char) :
    (timeMatch t = none ↔ hmmShape t = none) ∧
    (∀ hs ms, timeMatch t = some (hs, ms) →
      hmmShape t = some (strToNat hs, strToNat ms)) := by
  rcases t with _ | ⟨a, _ | ⟨b, _ | ⟨c, _ | ⟨d, _ | ⟨e, _ | ⟨f, rest⟩⟩⟩⟩⟩⟩
  · exact ⟨by simp [timeMatch, hmmShape], by simp [timeMatch]⟩
  · exact ⟨by simp [timeMatch, hmmShape], by simp [timeMatch]⟩
  · exact ⟨by simp [timeMatch, hmmShape], by simp [timeMatch]⟩
  · exact ⟨by simp [timeMatch, hmmShape], by simp [timeMatch]⟩
  · constructor
    · by_cases hcond : (isDigitChar a && b = ':' && isDigitChar c && isDigitChar d) = true
      · simp [timeMatch, hmmShape, hcond]
      · simp only [timeMatch, hmmShape, if_neg hcond]
    · intro hs ms h
      by_cases hcond : (isDigitChar a && b = ':' && isDigitChar c && isDigitChar d) = true
      · rw [timeMatch, if_pos hcond] at h
        rw [hmmShape, if_pos hcond]
        obtain ⟨h1, h2⟩ := Prod.mk.injEq _ _ _ _ ▸ Option.some.injEq _ _ ▸ h
        rw [← h1, ← h2, strToNat_one, strToNat_two]
      · rw [timeMatch, if_neg hcond] at h
        exact absurd h (by simp)
  · constructor
    · by_cases hcond :
        (isDigitChar a && isDigitChar b && c = ':' && isDigitChar d && isDigitChar e) = true
      · simp [timeMatch, hmmShape, hcond]
      · simp only [timeMatch, hmmShape, if_neg hcond]
    · intro hs ms h
      by_cases hcond :
        (isDigitChar a && isDigitChar b && c = ':' && isDigitChar d && isDigitChar e) = true
      · rw [timeMatch, if_pos hcond] at h
        rw [hmmShape, if_pos hcond]
        obtain ⟨h1, h2⟩ := Prod.mk.injEq _ _ _ _ ▸ Option.some.injEq _ _ ▸ h
        rw [← h1, ← h2, strToNat_two, strToNat_two]
      · rw [timeMatch, if_neg hcond] at h
        exact absurd h (by simp)
  · exact ⟨by simp [timeMatch, hmmShape], by simp [timeMatch]⟩

lemma padStart2_natToChars {n : Nat} (h : n < 100) :
    padStart2 (natToChars n) = twoDigits n := by
  revert h
  revert n
  decide

/-- C3 (amended: the pattern is matched against the whitespace-trimmed
input).  `normalizeTime` succeeds exactly when the trimmed input matches
`H:MM` or `HH:MM` with hour ≤ 23 and minute ≤ 59; the hour is left-padded
to two digits; a non-matching trimmed input gives the format error and an
out-of-range hour/minute gives the range error; the four concrete examples
of the claim hold. -/
theorem normalizeTime_characterization :
    (∀ l : List Char,
      (hmmShape (trim l) = none →
        normalizeTime l = .error "Invalid event time format. Expected HH:MM") ∧
      (∀ h m, hmmShape (trim l) = some (h, m) → h ≤ 23 → m ≤ 59 →
        normalizeTime l = .ok (twoDigits h ++ ':' :: twoDigits m)) ∧
      (∀ h m, hmmShape (trim l) = some (h, m) → 23 < h ∨ 59 < m →
        normalizeTime l = .error "Invalid event time value")) ∧
    normalizeTime ("9:00".data) = .ok ("09:00".data) ∧
    normalizeTime ("23:59".data) = .ok ("23:59".data) ∧
    normalizeTime ("24:00".data) = .error "Invalid event time value" ∧
    normalizeTime ("9:0".data) = .error "Invalid event time format. Expected HH:MM" := by
  refine ⟨?_, by decide, by decide, by decide, by decide⟩
  intro l
  obtain ⟨hiff, hsome⟩ := timeMatch_vs_hmmShape (trim l)
  cases htm : timeMatch (trim l) with
  | none =>
    have hnone : hmmShape (trim l) = none := hiff.mp htm
    refine ⟨fun _ => ?_, fun h m hm => ?_, fun h m hm => ?_⟩
    · rw [normalizeTime, normalizeTimeTrimmed, htm]
    · rw [hnone] at hm; exact absurd hm (by simp)
    · rw [hnone] at hm; exact absurd hm (by simp)
  | some p =>
    obtain ⟨hs, ms⟩ := p
    have hshape := hsome hs ms htm
    refine ⟨fun hn => ?_, fun h m hm hh hmm => ?_, fun h m hm hrange => ?_⟩
    · rw [hshape] at hn; exact absurd hn (by simp)
    · rw [hshape] at hm
      obtain ⟨h1, h2⟩ := Prod.mk.injEq _ _ _ _ ▸ Option.some.injEq _ _ ▸ hm
      rw [normalizeTime, normalizeTimeTrimmed, htm]
      have hcond : (23 < strToNat hs || 59 < strToNat ms) = false := by
        simp only [Bool.or_eq_false_iff, decide_eq_false_iff_not, not_lt]
        omega
      simp only [hcond, Bool.false_eq_true, if_false]
      rw [padStart2_natToChars (by omega), padStart2_natToChars (by omega), h1, h2]
    · rw [hshape] at hm
      obtain ⟨h1, h2⟩ := Prod.mk.injEq _ _ _ _ ▸ Option.some.injEq _ _ ▸ hm
      rw [normalizeTime, normalizeTimeTrimmed, htm]
      have hcond : (23 < strToNat hs || 59 < strToNat ms) = true := by
        simp only [Bool.or_eq_true, decide_eq_true_eq]
        omega
      simp only [hcond, if_true]

/-- Witness for C3 at the concrete input `"9:00"`. -/
theorem normalizeTime_characterization_witness :
    normalizeTime ("9:00".data) = .ok (twoDigits 9 ++ ':' :: twoDigits 0) :=
  (normalizeTime_characterization.1 ("9:00".data)).2.1 9 0 (by decide) (by decide) (by decide)

/-- Counterexample to C3 as stated: the input `" 9:00 "` does not match
`H:MM` or `HH:MM` (it has surrounding whitespace), yet `normalizeTime`
succeeds on it instead of failing with the format error, because the
source trims its input before matching. -/
theorem normalizeTime_untrimmed_cex :
    hmmShape (" 9:00 ".data) = none ∧
    normalizeTime (" 9:00 ".data) = .ok ("09:00".data) := by decide

lemma dropWhile_append_all {p : Char → Bool} :
    ∀ {a : List Char}, (∀ c ∈ a, p c = true) → ∀ x : List Char,
      (a ++ x).dropWhile p = x.dropWhile p := by
  intro a
  induction a with
  | nil => intro _ x; rw [List.nil_append]
  | cons c cs ih =>
    intro h x
    rw [List.cons_append, List.dropWhile_cons, if_pos (h c (List.mem_cons_self c cs))]
    exact ih (fun d hd => h d (List.mem_cons_of_mem c hd)) x

lemma dropWhile_append_ne_nil {p : Char → Bool} :
    ∀ {x : List Char}, x.dropWhile p ≠ [] → ∀ b : List Char,
      (x ++ b).dropWhile p = x.dropWhile p ++ b := by
  intro x
  induction x with
  | nil => intro h _; exact absurd rfl h
  | cons c cs ih =>
    intro h b
    by_cases hc : p c = true
    · rw [List.dropWhile_cons, if_pos hc] at h
      rw [List.cons_append, List.dropWhile_cons, if_pos hc, List.dropWhile_cons, if_pos hc]
      exact ih h b
    · rw [List.cons_append, List.dropWhile_cons, if_neg hc, List.dropWhile_cons, if_neg hc,
        List.cons_append]

lemma trim_of_surrounding_ws {a b t : List Char}
    (ha : ∀ c ∈ a, isJsWhitespace c = true) (hb : ∀ c ∈ b, isJsWhitespace c = true)
    (ht : t.dropWhile isJsWhitespace ≠ []) :
    trim (a ++ t ++ b) = trim t := by
  unfold trim
  rw [List.append_assoc, dropWhile_append_all ha, dropWhile_append_ne_nil ht,
    List.reverse_append,
    dropWhile_append_all (fun c hc => hb c (List.mem_reverse.mp hc))]

/-- C9.  `normalizeTime` trims surrounding whitespace before matching: if a
valid time `t` normalizes to `r`, then `t` surrounded by any whitespace
normalizes to the same `r`; in particular `" 9:00 "` normalizes to
`"09:00"` rather than failing. -/
theorem normalizeTime_trims_whitespace :
    (∀ (a b t : List Char) (r : List Char),
      (∀ c ∈ a, isJsWhitespace c = true) → (∀ c ∈ b, isJsWhitespace c = true) →
      normalizeTime t = .ok r → normalizeTime (a ++ t ++ b) = .ok r) ∧
    normalizeTime (" 9:00 ".data) = .ok ("09:00".data) := by
  refine ⟨?_, by decide⟩
  intro a b t r ha hb hok
  have hmatch : timeMatch (trim t) ≠ none := by
    intro hn
    rw [normalizeTime, normalizeTimeTrimmed, hn] at hok
    exact absurd hok (by simp)
  have htrim : trim t ≠ [] := by
    intro hnil
    rw [hnil] at hmatch
    exact hmatch rfl
  have hdrop : t.dropWhile isJsWhitespace ≠ [] := by
    intro hnil
    apply htrim
    rw [trim, hnil]
    rfl
  rw [normalizeTime, trim_of_surrounding_ws ha hb hdrop]
  exact hok

/-- Witness for C9: `"9:00"` surrounded by single spaces still gives
`"09:00"`. -/
theorem normalizeTime_trims_whitespace_witness :
    normalizeTime (" ".data ++ "9:00".data ++ " ".data) = .ok ("09:00".data) :=
  normalizeTime_trims_whitespace.1 (" ".data) (" ".data) ("9:00".data) ("09:00".data)
    (by decide) (by decide) (by decide)

/-- Gregorian leap-year rule, as in ECMAScript date arithmetic. -/
def isLeapYear (y : Nat) : Bool := (y % 4 = 0 && y % 100 ≠ 0) || y % 400 = 0

/-- Length of a month in the proleptic Gregorian calendar. -/
def daysInMonth (y m : Nat) : Nat :=
  if m = 2 then (if isLeapYear y then 29 else 28)
  else if m = 4 || m = 6 || m = 9 || m = 11 then 30 else 31

/-- Model of the ECMAScript `new Date(string)` parser used by
`normalizeDate` (`src/unnamed/part_000`, line 49), restricted to the
date-only `YYYY-MM-DD` form of the standard Date Time String Format — the
format the schema stores and the spec names.  Such a string denotes UTC
midnight of that calendar day, so the model keeps the calendar triple
`(year, month, day)`; a string whose components are out of range yields an
invalid date (`NaN` time value), here `none`.  Implementation-defined
fallback formats of real engines are outside the model. -/
def jsParseDate (l : List Char) : Option (Nat × Nat × Nat) :=
  match l with
  | [y1, y2, y3, y4, s1, m1, m2, s2, d1, d2] =>
    if s1 = '-' && s2 = '-' && isDigitChar y1 && isDigitChar y2 && isDigitChar y3 &&
        isDigitChar y4 && isDigitChar m1 && isDigitChar m2 && isDigitChar d1 &&
        isDigitChar d2 then
      let y := 1000 * digitVal y1 + 100 * digitVal y2 + 10 * digitVal y3 + digitVal y4
      let m := 10 * digitVal m1 + digitVal m2
      let d := 10 * digitVal d1 + digitVal d2
      if 1 ≤ m && m ≤ 12 && 1 ≤ d && d ≤ daysInMonth y m then some (y, m, d) else none
    else none
  | _ => none

/-- Four-digit decimal rendering (the year field of `toISOString`). -/
def fourDigits (n : Nat) : List Char :=
  [Nat.digitChar (n / 1000 % 10), Nat.digitChar (n / 100 % 10),
   Nat.digitChar (n / 10 % 10), Nat.digitChar (n % 10)]

/-- The date component of `Date.prototype.toISOString`, i.e. the result of
`parsed.toISOString().split('T')[0]` (`src/unnamed/part_000`, line 56). -/
def toISODate (y m d : Nat) : List Char :=
  fourDigits y ++ '-' :: twoDigits m ++ '-' :: twoDigits d

/-- Function `normalizeDate` (`src/unnamed/part_000`, lines 48–57): parse the input
as a date, throw `Invalid event date` if unparseable, otherwise keep only
the ISO date component. -/
def normalizeDate (l : List Char) : Except String (List Char) :=
  match jsParseDate l with
  | none => .error "Invalid event date"
  | some (y, m, d) => .ok (toISODate y m d)

lemma digitVal_lt_ten {c : Char} (h : isDigitChar c = true) : digitVal c < 10 := by
  simp only [isDigitChar, Bool.and_eq_true, decide_eq_true_eq] at h
  obtain ⟨h1, h2⟩ := h
  have h1' : '0'.toNat ≤ c.toNat := h1
  have h2' : c.toNat ≤ '9'.toNat := h2
  have e0 : '0'.toNat = 48 := rfl
  have e9 : '9'.toNat = 57 := rfl
  rw [e0] at h1'
  rw [e9] at h2'
  simp only [digitVal, e0]
  omega

lemma isDigitChar_digitChar {k : Nat} (h : k < 10) : isDigitChar (Nat.digitChar k) = true := by
  revert h
  revert k
  decide

lemma digitVal_digitChar {k : Nat} (h : k < 10) : digitVal (Nat.digitChar k) = k := by
  revert h
  revert k
  decide

lemma daysInMonth_le (y m : Nat) : daysInMonth y m ≤ 31 := by
  unfold daysInMonth
  split_ifs <;> omega

lemma jsParseDate_bounds {l : List Char} {y m d : Nat}
    (h : jsParseDate l = some (y, m, d)) :
    y ≤ 9999 ∧ 1 ≤ m ∧ m ≤ 12 ∧ 1 ≤ d ∧ d ≤ daysInMonth y m := by
  unfold jsParseDate at h
  split at h
  case h_2 => exact absurd h (by simp)
  case h_1 y1 y2 y3 y4 s1 m1 m2 s2 d1 d2 =>
    split at h
    case isFalse => exact absurd h (by simp)
    case isTrue hfmt =>
      dsimp only at h
      split at h
      case isFalse => exact absurd h (by simp)
      case isTrue hrange =>
        simp only [Bool.and_eq_true, decide_eq_true_eq] at hfmt hrange
        obtain ⟨⟨⟨⟨⟨⟨⟨⟨⟨-, -⟩, hy1⟩, hy2⟩, hy3⟩, hy4⟩, -⟩, -⟩, -⟩, -⟩ := hfmt
        have b1 := digitVal_lt_ten hy1
        have b2 := digitVal_lt_ten hy2
        have b3 := digitVal_lt_ten hy3
        have b4 := digitVal_lt_ten hy4
        obtain ⟨h1, h2⟩ := Prod.mk.injEq _ _ _ _ ▸ Option.some.injEq _ _ ▸ h
        obtain ⟨h2, h3⟩ := Prod.mk.injEq _ _ _ _ ▸ h2
        obtain ⟨⟨⟨hm1, hm2⟩, hd1⟩, hd2⟩ := hrange
        subst h1 h2 h3
        exact ⟨by omega, hm1, hm2, hd1, hd2⟩

lemma jsParseDate_toISODate {y m d : Nat} (hy : y ≤ 9999) (hm1 : 1 ≤ m) (hm2 : m ≤ 12)
    (hd1 : 1 ≤ d) (hd2 : d ≤ daysInMonth y m) :
    jsParseDate (toISODate y m d) = some (y, m, d) := by
  have hd31 : d ≤ 31 := le_trans hd2 (daysInMonth_le y m)
  have b1 : y / 1000 % 10 < 10 := Nat.mod_lt _ (by omega)
  have b2 : y / 100 % 10 < 10 := Nat.mod_lt _ (by omega)
  have b3 : y / 10 % 10 < 10 := Nat.mod_lt _ (by omega)
  have b4 : y % 10 < 10 := Nat.mod_lt _ (by omega)
  have b5 : m / 10 < 10 := by omega
  have b6 : m % 10 < 10 := Nat.mod_lt _ (by omega)
  have b7 : d / 10 < 10 := by omega
  have b8 : d % 10 < 10 := Nat.mod_lt _ (by omega)
  simp only [toISODate, fourDigits, twoDigits, List.cons_append, List.nil_append, jsParseDate]
  rw [if_pos (by
    simp [isDigitChar_digitChar, b1, b2, b3, b4, b5, b6, b7, b8])]
  simp only [digitVal_digitChar b1, digitVal_digitChar b2, digitVal_digitChar b3,
    digitVal_digitChar b4, digitVal_digitChar b5, digitVal_digitChar b6,
    digitVal_digitChar b7, digitVal_digitChar b8]
  rw [show 1000 * (y / 1000 % 10) + 100 * (y / 100 % 10) + 10 * (y / 10 % 10) + y % 10 = y
      from by omega,
    show 10 * (m / 10) + m % 10 = m from by omega,
    show 10 * (d / 10) + d % 10 = d from by omega]
  rw [if_pos (by
    simp only [Bool.and_eq_true, decide_eq_true_eq]
    exact ⟨⟨⟨hm1, hm2⟩, hd1⟩, hd2⟩)]

lemma normalizeDate_ok {l r : List Char} (h : normalizeDate l = .ok r) :
    ∃ y m d, jsParseDate l = some (y, m, d) ∧ r = toISODate y m d := by
  unfold normalizeDate at h
  cases hp : jsParseDate l with
  | none => rw [hp] at h; exact absurd h (by simp)
  | some t =>
    obtain ⟨y, m, d⟩ := t
    rw [hp] at h
    exact ⟨y, m, d, rfl, (Except.ok.injEq _ _ ▸ h).symm⟩

/-- C6.  `normalizeDate` fails with `Invalid event date` exactly when the
input is unparseable as a date; on success it returns only the date
component in `YYYY-MM-DD` form (itself a valid parseable date carrying the
same calendar triple); `normalizeDate "2025-01-31" = "2025-01-31"` and
`normalizeDate "not-a-date"` fails. -/
theorem normalizeDate_characterization :
    (∀ l : List Char, normalizeDate l = .error "Invalid event date" ↔ jsParseDate l = none) ∧
    (∀ l r : List Char, normalizeDate l = .ok r →
      ∃ y m d, jsParseDate l = some (y, m, d) ∧ r = toISODate y m d ∧
        jsParseDate r = some (y, m, d)) ∧
    normalizeDate ("2025-01-31".data) = .ok ("2025-01-31".data) ∧
    normalizeDate ("not-a-date".data) = .error "Invalid event date" := by
  refine ⟨?_, ?_, by decide, by decide⟩
  · intro l
    constructor
    · intro h
      cases hp : jsParseDate l with
      | none => rfl
      | some t =>
        obtain ⟨y, m, d⟩ := t
        rw [normalizeDate, hp] at h
        exact absurd h (by simp)
    · intro h
      rw [normalizeDate, h]
  · intro l r h
    obtain ⟨y, m, d, hp, hr⟩ := normalizeDate_ok h
    obtain ⟨hy, hm1, hm2, hd1, hd2⟩ := jsParseDate_bounds hp
    exact ⟨y, m, d, hp, hr, hr ▸ jsParseDate_toISODate hy hm1 hm2 hd1 hd2⟩

/-- Witness for C6 at the concrete input `"2025-01-31"`. -/
theorem normalizeDate_characterization_witness :
    ∃ y m d, jsParseDate ("2025-01-31".data) = some (y, m, d) ∧
      ("2025-01-31".data : List Char) = toISODate y m d ∧
      jsParseDate ("2025-01-31".data) = some (y, m, d) :=
  normalizeDate_characterization.2.1 ("2025-01-31".data) ("2025-01-31".data) (by decide)

lemma normalizeTime_ok {l r : List Char} (h : normalizeTime l = .ok r) :
    ∃ hh mm, hh ≤ 23 ∧ mm ≤ 59 ∧ r = twoDigits hh ++ ':' :: twoDigits mm := by
  unfold normalizeTime normalizeTimeTrimmed at h
  split at h
  · exact absurd h (by simp)
  case h_2 hs ms heq =>
    dsimp only at h
    split at h
    · exact absurd h (by simp)
    case isFalse hcond =>
      simp only [Bool.or_eq_true, decide_eq_true_eq, not_or, not_lt] at hcond
      refine ⟨strToNat hs, strToNat ms, hcond.1, hcond.2, ?_⟩
      have hr := (Except.ok.injEq _ _ ▸ h).symm
      rw [hr, padStart2_natToChars (by omega), padStart2_natToChars (by omega)]

set_option maxHeartbeats 1000000 in
lemma normalizeTime_fixed_point : ∀ h : Nat, h < 24 → ∀ m : Nat, m < 60 →
    normalizeTime (twoDigits h ++ ':' :: twoDigits m) =
      .ok (twoDigits h ++ ':' :: twoDigits m) := by
  decide

/-- C7.  Both normalizers are idempotent on their own outputs: whenever
they succeed with result `r`, applying them to `r` succeeds and returns
`r` again. -/
theorem normalize_idempotent :
    (∀ l r : List Char, normalizeDate l = .ok r → normalizeDate r = .ok r) ∧
    (∀ l r : List Char, normalizeTime l = .ok r → normalizeTime r = .ok r) := by
  constructor
  · intro l r h
    obtain ⟨y, m, d, hp, hr⟩ := normalizeDate_ok h
    obtain ⟨hy, hm1, hm2, hd1, hd2⟩ := jsParseDate_bounds hp
    have hparse := jsParseDate_toISODate hy hm1 hm2 hd1 hd2
    subst hr
    unfold normalizeDate
    rw [hparse]
  · intro l r h
    obtain ⟨hh, mm, hhh, hmm, hr⟩ := normalizeTime_ok h
    subst hr
    exact normalizeTime_fixed_point hh (by omega) mm (by omega)

/-- Witness for C7 at the concrete inputs `"2025-01-31"` and `"09:00"`. -/
theorem normalize_idempotent_witness :
    normalizeDate ("2025-01-31".data) = .ok ("2025-01-31".data) ∧
    normalizeTime ("09:00".data) = .ok ("09:00".data) :=
  ⟨normalize_idempotent.1 ("2025-01-31".data) ("2025-01-31".data) (by decide),
   normalize_idempotent.2 ("09:00".data) ("09:00".data) (by decide)⟩

/-- In-memory state of an Event document as seen by the pre-validate hook
(`src/unnamed/part_000`): the fields the hook reads or writes, plus the
Mongoose bookkeeping flags `isNew` / `isModified(field)` for the fields the
hook queries.  `description` and `modifiedDescription` are carried along to
express frame conditions; the hook never consults them. -/
structure EventDoc where
  title : List Char
  slug : List Char
  description : List Char
  date : List Char
  time : List Char
  isNew : Bool
  modifiedTitle : Bool
  modifiedDescription : Bool
  modifiedDate : Bool
  modifiedTime : Bool
deriving DecidableEq

/-- Time-normalization step of the hook (`src/unnamed/part_000`,
lines 158–160).  Returns the document together with the error passed to
`next`, if any; on error the field keeps its raw value since the
assignment happens only after the normalizer returns. -/
def preValidateTime (d : EventDoc) : EventDoc × Option String :=
  if d.modifiedTime then
    match normalizeTime d.time with
    | .error e => (d, some e)
    | .ok nt => ({ d with time := nt }, none)
  else (d, none)

/-- Date-normalization step of the hook (`src/unnamed/part_000`,
lines 154–156), continuing with the time step on success. -/
def preValidateDate (d : EventDoc) : EventDoc × Option String :=
  if d.modifiedDate then
    match normalizeDate d.date with
    | .error e => (d, some e)
    | .ok nd => preValidateTime { d with date := nd }
  else preValidateTime d

/-- The Event pre-validate hook `preValidate` (`src/unnamed/part_000`,
lines 140–166): regenerate the slug when the record is new or its title
was modified (failing on an empty slug), then normalize date and time in
that order.  The returned document reflects every mutation applied before
the first failure; the `Option String` is the error handed to `next`. -/
def preValidate (d : EventDoc) : EventDoc × Option String :=
  if d.isNew || d.modifiedTitle then
    let generatedSlug := slugify d.title
    if generatedSlug = [] then (d, some "Unable to generate slug from title")
    else preValidateDate { d with slug := generatedSlug }
  else preValidateDate d

lemma preValidateTime_slug (d : EventDoc) : (preValidateTime d).1.slug = d.slug := by
  rw [preValidateTime]
  split_ifs with h
  · cases normalizeTime d.time <;> rfl
  · rfl

lemma preValidateTime_date (d : EventDoc) : (preValidateTime d).1.date = d.date := by
  rw [preValidateTime]
  split_ifs with h
  · cases normalizeTime d.time <;> rfl
  · rfl

lemma preValidateTime_skip {d : EventDoc} (h : d.modifiedTime = false) :
    preValidateTime d = (d, none) := by
  rw [preValidateTime, h]
  simp

lemma preValidateDate_slug (d : EventDoc) : (preValidateDate d).1.slug = d.slug := by
  rw [preValidateDate]
  split_ifs with h
  · cases normalizeDate d.date with
    | error e => rfl
    | ok nd => exact preValidateTime_slug _
  · exact preValidateTime_slug d

lemma preValidateDate_date_skip {d : EventDoc} (h : d.modifiedDate = false) :
    (preValidateDate d).1.date = d.date := by
  rw [preValidateDate, h]
  simp only [Bool.false_eq_true, if_false]
  exact preValidateTime_date d

lemma preValidateDate_time_skip (d : EventDoc) (h : d.modifiedTime = false) :
    (preValidateDate d).1.time = d.time := by
  rw [preValidateDate]
  split_ifs with hd
  · cases normalizeDate d.date with
    | error e => rfl
    | ok nd =>
      dsimp only
      rw [show preValidateTime { d with date := nd } = ({ d with date := nd }, none) from
        preValidateTime_skip h]
  · rw [preValidateTime_skip h]

lemma preValidateDate_skip {d : EventDoc} (hd : d.modifiedDate = false)
    (ht : d.modifiedTime = false) : preValidateDate d = (d, none) := by
  rw [preValidateDate, hd]
  simp only [Bool.false_eq_true, if_false]
  exact preValidateTime_skip ht

lemma preValidateTime_ok_time {d d' : EventDoc} (h : preValidateTime d = (d', none))
    (hm : d.modifiedTime = true) : normalizeTime d.time = .ok d'.time := by
  rw [preValidateTime, if_pos hm] at h
  cases hnt : normalizeTime d.time with
  | error e =>
    rw [hnt] at h
    exact absurd (congrArg Prod.snd h) (by simp)
  | ok nt =>
    rw [hnt] at h
    dsimp only at h
    have hd' : ({ d with time := nt } : EventDoc) = d' := congrArg Prod.fst h
    rw [← hd']

lemma preValidateDate_ok_date {d d' : EventDoc} (h : preValidateDate d = (d', none))
    (hm : d.modifiedDate = true) : normalizeDate d.date = .ok d'.date := by
  rw [preValidateDate, if_pos hm] at h
  cases hnd : normalizeDate d.date with
  | error e =>
    rw [hnd] at h
    exact absurd (congrArg Prod.snd h) (by simp)
  | ok nd =>
    rw [hnd] at h
    dsimp only at h
    have hdd := preValidateTime_date { d with date := nd }
    rw [h] at hdd
    dsimp only at hdd
    rw [hdd]

lemma preValidateDate_ok_time {d d' : EventDoc} (h : preValidateDate d = (d', none))
    (hm : d.modifiedTime = true) : normalizeTime d.time = .ok d'.time := by
  rw [preValidateDate] at h
  split_ifs at h with hd
  · cases hnd : normalizeDate d.date with
    | error e =>
      rw [hnd] at h
      exact absurd (congrArg Prod.snd h) (by simp)
    | ok nd =>
      rw [hnd] at h
      dsimp only at h
      exact @preValidateTime_ok_time { d with date := nd } d' h hm
  · exact preValidateTime_ok_time h hm

lemma preValidate_ok_chain {d d' : EventDoc} (h : preValidate d = (d', none)) :
    preValidateDate d = (d', none) ∨
      preValidateDate { d with slug := slugify d.title } = (d', none) := by
  rw [preValidate] at h
  split_ifs at h with hor
  · dsimp only at h
    split_ifs at h with hempty
    · exact absurd (congrArg Prod.snd h) (by simp)
    · exact Or.inr h
  · exact Or.inl h

/-- C4.  The hook regenerates the slug iff the record is new or its title
was modified (when the title was not touched the slug is untouched, and
when it was, the slug becomes `slugify title`), and re-normalizes date
(resp. time) iff that field was modified: an unmodified field passes
through unchanged, while on a run in which the hook succeeds a modified
date (resp. time) field has been replaced by the normalizer's output on
its raw value; consequently a document whose only change is its
description passes through the hook untouched and without error. -/
theorem preValidate_frame :
    ∀ d : EventDoc,
      (d.isNew = false → d.modifiedTitle = false → (preValidate d).1.slug = d.slug) ∧
      ((d.isNew = true ∨ d.modifiedTitle = true) → slugify d.title ≠ [] →
        (preValidate d).1.slug = slugify d.title) ∧
      (d.modifiedDate = false → (preValidate d).1.date = d.date) ∧
      (d.modifiedTime = false → (preValidate d).1.time = d.time) ∧
      (d.isNew = false → d.modifiedTitle = false → d.modifiedDate = false →
        d.modifiedTime = false → preValidate d = (d, none)) ∧
      (∀ d' : EventDoc, preValidate d = (d', none) → d.modifiedDate = true →
        normalizeDate d.date = .ok d'.date) ∧
      (∀ d' : EventDoc, preValidate d = (d', none) → d.modifiedTime = true →
        normalizeTime d.time = .ok d'.time) := by
  intro d
  refine ⟨?_, ?_, ?_, ?_, ?_, ?_, ?_⟩
  · intro hnew htitle
    rw [preValidate, hnew, htitle]
    simp only [Bool.or_self, Bool.false_eq_true, if_false]
    exact preValidateDate_slug d
  · intro hcond hslug
    have hor : (d.isNew || d.modifiedTitle) = true := by
      rcases hcond with h | h <;> simp [h]
    rw [preValidate, hor]
    simp only [if_true]
    rw [if_neg hslug]
    exact preValidateDate_slug { d with slug := slugify d.title }
  · intro hdate
    rw [preValidate]
    split_ifs with hor
    · dsimp only
      split_ifs with hslug
      · rfl
      · exact @preValidateDate_date_skip { d with slug := slugify d.title } hdate
    · exact preValidateDate_date_skip hdate
  · intro htime
    rw [preValidate]
    split_ifs with hor
    · dsimp only
      split_ifs with hslug
      · rfl
      · exact preValidateDate_time_skip { d with slug := slugify d.title } htime
    · exact preValidateDate_time_skip d htime
  · intro hnew htitle hdate htime
    rw [preValidate, hnew, htitle]
    simp only [Bool.or_self, Bool.false_eq_true, if_false]
    exact preValidateDate_skip hdate htime
  · intro d' hok hm
    rcases preValidate_ok_chain hok with h | h
    · exact preValidateDate_ok_date h hm
    · exact @preValidateDate_ok_date { d with slug := slugify d.title } d' h hm
  · intro d' hok hm
    rcases preValidate_ok_chain hok with h | h
    · exact preValidateDate_ok_time h hm
    · exact @preValidateDate_ok_time { d with slug := slugify d.title } d' h hm

/-- A persisted document whose only modified field is its description. -/
def descOnlyDoc : EventDoc :=
  { title := "DevFest".data
    slug := "devfest".data
    description := "updated description".data
    date := "2025-01-31".data
    time := "09:00".data
    isNew := false
    modifiedTitle := false
    modifiedDescription := true
    modifiedDate := false
    modifiedTime := false }

/-- A persisted document whose date and time fields were both modified
(the raw time `"9:00"` still needs padding). -/
def dateTimeDoc : EventDoc :=
  { title := "DevFest".data
    slug := "devfest".data
    description := "d".data
    date := "2025-01-31".data
    time := "9:00".data
    isNew := false
    modifiedTitle := false
    modifiedDescription := false
    modifiedDate := true
    modifiedTime := true }

/-- The document the hook produces from `dateTimeDoc`: date and time
replaced by their normalized forms. -/
def dateTimeDocNorm : EventDoc := { dateTimeDoc with time := "09:00".data }

/-- Witness for C4: a document whose only modified field is its
description keeps its slug, date and time and passes the hook, while a
document with modified date and time gets both fields replaced by the
normalizers' outputs. -/
theorem preValidate_frame_witness :
    preValidate descOnlyDoc = (descOnlyDoc, none) ∧
    normalizeDate dateTimeDoc.date = .ok dateTimeDocNorm.date ∧
    normalizeTime dateTimeDoc.time = .ok dateTimeDocNorm.time :=
  ⟨(preValidate_frame descOnlyDoc).2.2.2.2.1 rfl rfl rfl rfl,
   (preValidate_frame dateTimeDoc).2.2.2.2.2.1 dateTimeDocNorm (by decide) rfl,
   (preValidate_frame dateTimeDoc).2.2.2.2.2.2 dateTimeDocNorm (by decide) rfl⟩

/-- C10.  The hook mutates slug, then date, then time, and does not roll
back on failure: when the record's title changed (yielding a valid new
slug) and its date changed to an unparseable value, the hook reports the
date error, yet the returned in-memory document already carries the
freshly generated slug while its date and time fields keep their raw
input values. -/
theorem preValidate_no_rollback :
    ∀ d : EventDoc, (d.isNew = true ∨ d.modifiedTitle = true) → slugify d.title ≠ [] →
      d.modifiedDate = true → jsParseDate d.date = none →
      preValidate d = ({ d with slug := slugify d.title }, some "Invalid event date") := by
  intro d hcond hslug hdate hparse
  have hor : (d.isNew || d.modifiedTitle) = true := by
    rcases hcond with h | h <;> simp [h]
  rw [preValidate, hor]
  simp only [if_true]
  rw [if_neg hslug, preValidateDate, if_pos hdate]
  have herr : normalizeDate ({ d with slug := slugify d.title } : EventDoc).date =
      .error "Invalid event date" := by
    show normalizeDate d.date = _
    rw [normalizeDate, hparse]
  rw [herr]

/-- A document whose title changed to a sluggable value and whose date
changed to an unparseable value. -/
def badDateDoc : EventDoc :=
  { title := "New Title".data
    slug := "old-slug".data
    description := "d".data
    date := "not-a-date".data
    time := "raw time".data
    isNew := false
    modifiedTitle := true
    modifiedDescription := false
    modifiedDate := true
    modifiedTime := false }

/-- Witness for C10 at `badDateDoc`: the hook fails with the date error
while the slug has already been overwritten and date/time stay raw. -/
theorem preValidate_no_rollback_witness :
    preValidate badDateDoc =
      ({ badDateDoc with slug := slugify badDateDoc.title }, some "Invalid event date") :=
  preValidate_no_rollback badDateDoc (Or.inr rfl) (by decide) rfl (by decide)

/-- In-memory state of a Booking document as seen by the pre-save hook
(`src/database/booking.model.ts`): the event reference, the email, and
Mongoose's `isModified('eventId')` flag. -/
structure BookingDoc where
  eventId : Nat
  email : List Char
  modifiedEventId : Bool
deriving DecidableEq

/-- The Booking pre-save hook `preSave` (`src/database/booking.model.ts`,
lines 58–74), relative to the identifiers present in the Event collection.
The `Bool` component records whether the hook queried the Event collection
(`Event.exists`); the `Except` component is the outcome handed to `next`. -/
def preSave (events : List Nat) (b : BookingDoc) : Bool × Except String Unit :=
  if !b.modifiedEventId then (false, .ok ())
  else if events.contains b.eventId then (true, .ok ())
  else (true, .error "Cannot create booking: referenced event does not exist.")

/-- The collections visible to a Booking save. -/
structure Db where
  events : List Nat
  bookings : List BookingDoc
deriving DecidableEq

/-- Persisting a Booking: run the pre-save hook; a hook error aborts the
write (the stored collections are unchanged and the error is surfaced),
otherwise the document is persisted. -/
def saveBooking (db : Db) (b : BookingDoc) : Db × Option String :=
  match (preSave db.events b).2 with
  | .error e => (db, some e)
  | .ok _ => ({ db with bookings := db.bookings ++ [b] }, none)

/-- C5.  If `eventId` was set or changed, the hook checks that the
referenced Event exists: with no such Event it fails with the
referential-integrity error and the write persists nothing; with the Event
present it succeeds; if `eventId` was not modified the hook succeeds
without querying the Event collection. -/
theorem preSave_referential_integrity :
    ∀ (db : Db) (b : BookingDoc),
      (b.modifiedEventId = true → db.events.contains b.eventId = false →
        preSave db.events b =
          (true, .error "Cannot create booking: referenced event does not exist.") ∧
        saveBooking db b =
          (db, some "Cannot create booking: referenced event does not exist.")) ∧
      (b.modifiedEventId = true → db.events.contains b.eventId = true →
        preSave db.events b = (true, .ok ())) ∧
      (b.modifiedEventId = false → preSave db.events b = (false, .ok ())) := by
  intro db b
  refine ⟨?_, ?_, ?_⟩
  · intro hmod hmiss
    have hpre : preSave db.events b =
        (true, .error "Cannot create booking: referenced event does not exist.") := by
      rw [preSave, hmod, hmiss]
      simp
    refine ⟨hpre, ?_⟩
    rw [saveBooking, hpre]
  · intro hmod hhit
    rw [preSave, hmod, hhit]
    simp
  · intro hmod
    rw [preSave, hmod]
    simp

/-- A database with a single Event (identifier 1) and no Bookings. -/
def dbOneEvent : Db := { events := [1], bookings := [] }

/-- A Booking whose freshly set reference points at the absent Event 2. -/
def danglingBooking : BookingDoc :=
  { eventId := 2, email := "a@b.co".data, modifiedEventId := true }

/-- Witness for C5: saving a Booking that references a nonexistent Event
fails with the referential-integrity error and persists nothing. -/
theorem preSave_referential_integrity_witness :
    preSave dbOneEvent.events danglingBooking =
      (true, .error "Cannot create booking: referenced event does not exist.") ∧
    saveBooking dbOneEvent danglingBooking =
      (dbOneEvent, some "Cannot create booking: referenced event does not exist.") :=
  (preSave_referential_integrity dbOneEvent danglingBooking).1 rfl rfl

/-- State of the connection future stored in the cache's `promise` slot
(`src/lib/mongodb.ts`): still pending, resolved with a handle, or rejected
with an error. -/
inductive FutureState
  | pending
  | resolvedOk (h : Nat)
  | resolvedErr (e : String)
deriving DecidableEq

/-- The process-wide cache of `src/lib/mongodb.ts` (`cached.conn` and
`cached.promise`, lines 45–51), plus a ghost counter of how many times the
driver's `mongoose.connect` (line 67) has been invoked.  Connection
handles are abstracted as `Nat`. -/
structure CacheState where
  conn : Option Nat
  promise : Option FutureState
  attempts : Nat
deriving DecidableEq

/-- Progress of one caller of `connectToDatabase`.  `idle`: not yet
invoked.  `waiting`: has run the synchronous section (lines 61–72) and is
suspended at `await cached.promise` (line 75).  `done h`: returned the
handle `h`.  `failed e`: the awaited promise rejected with `e`. -/
inductive CallerState
  | idle
  | waiting
  | done (h : Nat)
  | failed (e : String)
deriving DecidableEq

/-- Global state of `connectToDatabase` with `n` concurrent callers: the
shared cache and each caller's progress. -/
structure SysState (n : Nat) where
  cache : CacheState
  callers : Fin n → CallerState

/-- Initial state: nothing cached, no caller started, no connect issued. -/
def initState (n : Nat) : SysState n :=
  { cache := { conn := none, promise := none, attempts := 0 }
    callers := fun _ => .idle }

/-- One interleaving step of `connectToDatabase`
(`src/lib/mongodb.ts`, lines 59–77).  JavaScript's run-to-completion
semantics makes the body from entry down to the first `await` (line 75)
one atomic step, so the conn check (lines 61–63) and the check-and-install
of the promise (lines 66–72, including the `mongoose.connect` call) cannot
interleave with other callers; the only suspension point is the `await`.

  * `startHit`: lines 61–63, a cached connection is returned at once.
  * `startJoin`: lines 66 and 75, an in-flight promise exists, so the
    caller awaits it without starting a second attempt.
  * `startConnect`: lines 66–72 and 75, no promise exists: the driver's
    connect is invoked (ghost counter bumped), the pending promise is
    stored, and the caller awaits it.
  * `resolveOk` / `resolveErr`: the driver settles the pending promise.
  * `awaitOk`: line 75–76, a waiting caller resumes after resolution,
    stores the handle in `cached.conn` and returns it.
  * `awaitErr`: the awaited promise rejected, so the caller's
    `await` throws; `cached.conn` is never assigned. -/
inductive ConnStep {n : Nat} : SysState n → SysState n → Prop
  | startHit (s : SysState n) (i : Fin n) (c : Nat) :
      s.callers i = .idle → s.cache.conn = some c →
      ConnStep s { s with callers := Function.update s.callers i (.done c) }
  | startJoin (s : SysState n) (i : Fin n) :
      s.callers i = .idle → s.cache.conn = none → s.cache.promise ≠ none →
      ConnStep s { s with callers := Function.update s.callers i .waiting }
  | startConnect (s : SysState n) (i : Fin n) :
      s.callers i = .idle → s.cache.conn = none → s.cache.promise = none →
      ConnStep s
        { cache := { conn := none, promise := some .pending
                     attempts := s.cache.attempts + 1 }
          callers := Function.update s.callers i .waiting }
  | resolveOk (s : SysState n) (h : Nat) :
      s.cache.promise = some .pending →
      ConnStep s { s with cache := { s.cache with promise := some (.resolvedOk h) } }
  | resolveErr (s : SysState n) (e : String) :
      s.cache.promise = some .pending →
      ConnStep s { s with cache := { s.cache with promise := some (.resolvedErr e) } }
  | awaitOk (s : SysState n) (i : Fin n) (h : Nat) :
      s.callers i = .waiting → s.cache.promise = some (.resolvedOk h) →
      ConnStep s
        { cache := { s.cache with conn := some h }
          callers := Function.update s.callers i (.done h) }
  | awaitErr (s : SysState n) (i : Fin n) (e : String) :
      s.callers i = .waiting → s.cache.promise = some (.resolvedErr e) →
      ConnStep s { s with callers := Function.update s.callers i (.failed e) }

/-- Reflexive-transitive closure of `ConnStep`. -/
inductive ConnReach {n : Nat} : SysState n → SysState n → Prop
  | refl (s : SysState n) : ConnReach s s
  | tail {s t u : SysState n} : ConnReach s t → ConnStep t u → ConnReach s u

/-- Inductive invariant of the connection cache: the ghost attempt counter
is 0 before a promise exists and 1 afterwards; a cached connection, a
completed caller, and a failed caller each certify the promise's settled
state. -/
def ConnInv {n : Nat} (s : SysState n) : Prop :=
  (s.cache.promise = none → s.cache.attempts = 0) ∧
  (s.cache.promise ≠ none → s.cache.attempts = 1) ∧
  (∀ h, s.cache.conn = some h → s.cache.promise = some (.resolvedOk h)) ∧
  (∀ (i : Fin n) (h : Nat), s.callers i = .done h →
    s.cache.promise = some (.resolvedOk h)) ∧
  (∀ (i : Fin n) (e : String), s.callers i = .failed e →
    s.cache.promise = some (.resolvedErr e))

lemma connInv_init (n : Nat) : ConnInv (initState n) := by
  refine ⟨fun _ => rfl, fun h => absurd rfl h, ?_, ?_, ?_⟩
  · intro h hc; exact absurd hc (by simp [initState])
  · intro i h hc; exact absurd hc (by simp [initState])
  · intro i e hc; exact absurd hc (by simp [initState])

lemma update_cases {n : Nat} {f : Fin n → CallerState} {i j : Fin n}
    {v r : CallerState} (h : Function.update f i v j = r) :
    v = r ∨ (j ≠ i ∧ f j = r) := by
  by_cases hij : j = i
  · subst hij
    rw [Function.update_same] at h
    exact Or.inl h
  · rw [Function.update_noteq hij] at h
    exact Or.inr ⟨hij, h⟩

lemma connInv_step {n : Nat} {s t : SysState n} (hs : ConnInv s) (hstep : ConnStep s t) :
    ConnInv t := by
  obtain ⟨h0, h1, hconn, hdone, hfail⟩ := hs
  cases hstep with
  | startHit i c hidle hc =>
    refine ⟨h0, h1, hconn, ?_, ?_⟩
    · intro j h hj
      dsimp only at hj ⊢
      rcases update_cases hj with hv | ⟨-, hv⟩
      · cases hv
        exact hconn c hc
      · exact hdone j h hv
    · intro j e hj
      dsimp only at hj ⊢
      rcases update_cases hj with hv | ⟨-, hv⟩
      · cases hv
      · exact hfail j e hv
  | startJoin i hidle hc hp =>
    refine ⟨h0, h1, hconn, ?_, ?_⟩
    · intro j h hj
      dsimp only at hj ⊢
      rcases update_cases hj with hv | ⟨-, hv⟩
      · cases hv
      · exact hdone j h hv
    · intro j e hj
      dsimp only at hj ⊢
      rcases update_cases hj with hv | ⟨-, hv⟩
      · cases hv
      · exact hfail j e hv
  | startConnect i hidle hc hp =>
    refine ⟨?_, ?_, ?_, ?_, ?_⟩
    · intro hpn
      dsimp only at hpn
      exact Option.noConfusion hpn
    · intro _
      dsimp only
      rw [h0 hp]
    · intro h hcc
      dsimp only at hcc
      exact Option.noConfusion hcc
    · intro j h hj
      dsimp only at hj ⊢
      rcases update_cases hj with hv | ⟨-, hv⟩
      · cases hv
      · have := hdone j h hv
        rw [hp] at this
        exact Option.noConfusion this
    · intro j e hj
      dsimp only at hj ⊢
      rcases update_cases hj with hv | ⟨-, hv⟩
      · cases hv
      · have := hfail j e hv
        rw [hp] at this
        exact Option.noConfusion this
  | resolveOk h hp =>
    refine ⟨?_, ?_, ?_, ?_, ?_⟩
    · intro hpn
      dsimp only at hpn
      exact Option.noConfusion hpn
    · intro _
      dsimp only
      exact h1 (by rw [hp]; simp)
    · intro h' hcc
      dsimp only at hcc ⊢
      have := hconn h' hcc
      rw [hp] at this
      cases this
    · intro j h' hj
      dsimp only at hj ⊢
      have := hdone j h' hj
      rw [hp] at this
      cases this
    · intro j e hj
      dsimp only at hj ⊢
      have := hfail j e hj
      rw [hp] at this
      cases this
  | resolveErr e hp =>
    refine ⟨?_, ?_, ?_, ?_, ?_⟩
    · intro hpn
      dsimp only at hpn
      exact Option.noConfusion hpn
    · intro _
      dsimp only
      exact h1 (by rw [hp]; simp)
    · intro h' hcc
      dsimp only at hcc ⊢
      have := hconn h' hcc
      rw [hp] at this
      cases this
    · intro j h' hj
      dsimp only at hj ⊢
      have := hdone j h' hj
      rw [hp] at this
      cases this
    · intro j e' hj
      dsimp only at hj ⊢
      have := hfail j e' hj
      rw [hp] at this
      cases this
  | awaitOk i h hwait hp =>
    refine ⟨?_, ?_, ?_, ?_, ?_⟩
    · intro hpn
      dsimp only at hpn
      rw [hpn] at hp
      exact Option.noConfusion hp
    · intro _
      dsimp only
      exact h1 (by rw [hp]; simp)
    · intro h' hcc
      dsimp only at hcc ⊢
      cases hcc
      exact hp
    · intro j h' hj
      dsimp only at hj ⊢
      rcases update_cases hj with hv | ⟨-, hv⟩
      · cases hv
        exact hp
      · exact hdone j h' hv
    · intro j e hj
      dsimp only at hj ⊢
      rcases update_cases hj with hv | ⟨-, hv⟩
      · cases hv
      · have := hfail j e hv
        rw [hp] at this
        cases this
  | awaitErr i e hwait hp =>
    refine ⟨h0, h1, hconn, ?_, ?_⟩
    · intro j h hj
      dsimp only at hj ⊢
      rcases update_cases hj with hv | ⟨-, hv⟩
      · cases hv
      · exact hdone j h hv
    · intro j e' hj
      dsimp only at hj ⊢
      rcases update_cases hj with hv | ⟨-, hv⟩
      · cases hv
        exact hp
      · exact hfail j e' hv

lemma connInv_reach {n : Nat} {s : SysState n} (h : ConnReach (initState n) s) :
    ConnInv s := by
  induction h with
  | refl => exact connInv_init n
  | tail _ hstep ih => exact connInv_step ih hstep

/-- C1.  In every reachable state of the connection system — that is,
under every interleaving of `n` callers of `connectToDatabase` — at most
one `mongoose.connect` call has been issued, every caller that returned
holds exactly the handle the shared promise resolved with, and hence all
callers receive the same resolved handle. -/
theorem connectToDatabase_single_attempt :
    ∀ (n : Nat) (s : SysState n), ConnReach (initState n) s →
      s.cache.attempts ≤ 1 ∧
      (∀ (i : Fin n) (h : Nat), s.callers i = .done h →
        s.cache.promise = some (.resolvedOk h)) ∧
      (∀ (i j : Fin n) (hi hj : Nat),
        s.callers i = .done hi → s.callers j = .done hj → hi = hj) := by
  intro n s hreach
  obtain ⟨h0, h1, hconn, hdone, hfail⟩ := connInv_reach hreach
  refine ⟨?_, hdone, ?_⟩
  · by_cases hp : s.cache.promise = none
    · rw [h0 hp]
      omega
    · rw [h1 hp]
  · intro i j hi hj hdi hdj
    have e1 := hdone i hi hdi
    have e2 := hdone j hj hdj
    rw [e1] at e2
    simpa using e2

lemma sysState_eq {n : Nat} {a b : SysState n} (hc : a.cache = b.cache)
    (hf : ∀ i, a.callers i = b.callers i) : a = b := by
  cases a
  cases b
  dsimp only at hc hf
  rw [SysState.mk.injEq]
  exact ⟨hc, funext hf⟩

/-- Demo trace, first intermediate state: caller 0 ran the synchronous
section first, issued the single connect, and awaits the pending
promise. -/
def demoA : SysState 2 :=
  ⟨⟨none, some .pending, 1⟩, fun j => if j = 0 then .waiting else .idle⟩

/-- Caller 1 then joined the in-flight promise. -/
def demoB : SysState 2 := ⟨⟨none, some .pending, 1⟩, fun _ => .waiting⟩

/-- The driver resolved the promise with handle 7. -/
def demoC : SysState 2 := ⟨⟨none, some (.resolvedOk 7), 1⟩, fun _ => .waiting⟩

/-- Caller 0 resumed, cached the connection and returned it. -/
def demoD : SysState 2 :=
  ⟨⟨some 7, some (.resolvedOk 7), 1⟩, fun j => if j = 0 then .done 7 else .waiting⟩

/-- Caller 1 resumed and returned the same handle. -/
def demoE : SysState 2 := ⟨⟨some 7, some (.resolvedOk 7), 1⟩, fun _ => .done 7⟩

lemma demoReachE : ConnReach (initState 2) demoE := by
  have s1 : ConnStep (initState 2) demoA := by
    have h := ConnStep.startConnect (initState 2) (0 : Fin 2) rfl rfl rfl
    have he := @sysState_eq 2
      { cache := { conn := none, promise := some .pending
                   attempts := (initState 2).cache.attempts + 1 }
        callers := Function.update (initState 2).callers 0 .waiting }
      demoA rfl (by intro j; fin_cases j <;> decide)
    exact he ▸ h
  have s2 : ConnStep demoA demoB := by
    have h := ConnStep.startJoin demoA (1 : Fin 2) (by decide) rfl (by decide)
    have he := @sysState_eq 2
      { demoA with callers := Function.update demoA.callers 1 .waiting }
      demoB rfl (by intro j; fin_cases j <;> decide)
    exact he ▸ h
  have s3 : ConnStep demoB demoC := by
    have h := ConnStep.resolveOk demoB 7 rfl
    have he := @sysState_eq 2
      { demoB with cache := { demoB.cache with promise := some (.resolvedOk 7) } }
      demoC rfl (fun j => rfl)
    exact he ▸ h
  have s4 : ConnStep demoC demoD := by
    have h := ConnStep.awaitOk demoC (0 : Fin 2) 7 rfl rfl
    have he := @sysState_eq 2
      { cache := { demoC.cache with conn := some 7 }
        callers := Function.update demoC.callers 0 (.done 7) }
      demoD rfl (by intro j; fin_cases j <;> decide)
    exact he ▸ h
  have s5 : ConnStep demoD demoE := by
    have h := ConnStep.awaitOk demoD (1 : Fin 2) 7 (by decide) rfl
    have he := @sysState_eq 2
      { cache := { demoD.cache with conn := some 7 }
        callers := Function.update demoD.callers 1 (.done 7) }
      demoE rfl (by intro j; fin_cases j <;> decide)
    exact he ▸ h
  exact ConnReach.tail (ConnReach.tail (ConnReach.tail (ConnReach.tail
    (ConnReach.tail (ConnReach.refl _) s1) s2) s3) s4) s5

/-- Witness for C1: in the concrete two-caller run `demoReachE`, one
connect was issued and both callers hold the promise's handle. -/
theorem connectToDatabase_single_attempt_witness :
    demoE.cache.attempts ≤ 1 ∧
    (∀ (i : Fin 2) (h : Nat), demoE.callers i = .done h →
      demoE.cache.promise = some (.resolvedOk h)) ∧
    (∀ (i j : Fin 2) (hi hj : Nat),
      demoE.callers i = .done hi → demoE.callers j = .done hj → hi = hj) :=
  connectToDatabase_single_attempt 2 demoE demoReachE

/-- C8.  Once the initial connection attempt has failed (the cached
promise is rejected with `e`), every later reachable state still holds
that same rejected promise, no further connect attempt is ever issued, no
connection is ever cached, no caller ever completes successfully, and
every caller that fails fails with that same error `e`. -/
theorem connectToDatabase_sticky_failure :
    ∀ (n : Nat) (s s2 : SysState n) (e : String),
      ConnReach (initState n) s → s.cache.promise = some (.resolvedErr e) →
      ConnReach s s2 →
      s2.cache.promise = some (.resolvedErr e) ∧
      s2.cache.attempts = s.cache.attempts ∧
      s2.cache.conn = none ∧
      (∀ (i : Fin n) (h : Nat), s2.callers i ≠ .done h) ∧
      (∀ (i : Fin n) (e2 : String), s2.callers i = .failed e2 → e2 = e) := by
  intro n s s2 e hreach hrej hreach2
  induction hreach2 with
  | refl =>
    obtain ⟨-, -, hconn, hdone, hfail⟩ := connInv_reach hreach
    refine ⟨hrej, rfl, ?_, ?_, ?_⟩
    · cases hcc : s.cache.conn with
      | none => rfl
      | some c =>
        have := hconn c hcc
        rw [hrej] at this
        cases this
    · intro i h' hd
      have := hdone i h' hd
      rw [hrej] at this
      cases this
    · intro i e2 hf
      have := hfail i e2 hf
      rw [hrej] at this
      exact (show e = e2 by simpa using this).symm
  | tail hr hstep ih =>
    obtain ⟨hp, hat, hcn, hnd, hfe⟩ := ih
    cases hstep with
    | startHit i c hidle hc =>
      rw [hcn] at hc
      cases hc
    | startJoin i hidle hc hpne =>
      refine ⟨hp, hat, hcn, ?_, ?_⟩
      · intro j h' hd
        dsimp only at hd
        rcases update_cases hd with hv | ⟨-, hv⟩
        · cases hv
        · exact hnd j h' hv
      · intro j e2 hf
        dsimp only at hf
        rcases update_cases hf with hv | ⟨-, hv⟩
        · cases hv
        · exact hfe j e2 hv
    | startConnect i hidle hc hpn =>
      rw [hp] at hpn
      cases hpn
    | resolveOk h hpend =>
      rw [hp] at hpend
      exact absurd hpend (by simp)
    | resolveErr e2 hpend =>
      rw [hp] at hpend
      exact absurd hpend (by simp)
    | awaitOk i h hwait hpok =>
      rw [hp] at hpok
      exact absurd hpok (by simp)
    | awaitErr i e2 hwait hperr =>
      have he : e2 = e := by
        rw [hp] at hperr
        simpa using hperr.symm
      refine ⟨hp, hat, hcn, ?_, ?_⟩
      · intro j h' hd
        dsimp only at hd
        rcases update_cases hd with hv | ⟨-, hv⟩
        · cases hv
        · exact hnd j h' hv
      · intro j e3 hf
        dsimp only at hf
        rcases update_cases hf with hv | ⟨-, hv⟩
        · cases hv
          exact he
        · exact hfe j e3 hv

/-- Failure demo trace: caller 0 issued the single connect and awaits. -/
def demoErrA : SysState 2 :=
  ⟨⟨none, some .pending, 1⟩, fun j => if j = 0 then .waiting else .idle⟩

/-- The driver rejected the promise with `"refused"`. -/
def demoErrB : SysState 2 :=
  ⟨⟨none, some (.resolvedErr "refused"), 1⟩, fun j => if j = 0 then .waiting else .idle⟩

/-- Caller 0 resumed and the rejection propagated to it. -/
def demoErrC : SysState 2 :=
  ⟨⟨none, some (.resolvedErr "refused"), 1⟩,
   fun j => if j = 0 then .failed "refused" else .idle⟩

/-- Caller 1 invoked `connectToDatabase` afterwards and was handed the
same already-rejected promise — no new attempt was started. -/
def demoErrD : SysState 2 :=
  ⟨⟨none, some (.resolvedErr "refused"), 1⟩,
   fun j => if j = 0 then .failed "refused" else .waiting⟩

/-- Caller 1's `await` threw the same error. -/
def demoErrE : SysState 2 :=
  ⟨⟨none, some (.resolvedErr "refused"), 1⟩, fun _ => .failed "refused"⟩

lemma demoReachErrB : ConnReach (initState 2) demoErrB := by
  have s1 : ConnStep (initState 2) demoErrA := by
    have h := ConnStep.startConnect (initState 2) (0 : Fin 2) rfl rfl rfl
    have he := @sysState_eq 2
      { cache := { conn := none, promise := some .pending
                   attempts := (initState 2).cache.attempts + 1 }
        callers := Function.update (initState 2).callers 0 .waiting }
      demoErrA rfl (by intro j; fin_cases j <;> decide)
    exact he ▸ h
  have s2 : ConnStep demoErrA demoErrB := by
    have h := ConnStep.resolveErr demoErrA "refused" rfl
    have he := @sysState_eq 2
      { demoErrA with cache := { demoErrA.cache with promise := some (.resolvedErr "refused") } }
      demoErrB rfl (fun j => rfl)
    exact he ▸ h
  exact ConnReach.tail (ConnReach.tail (ConnReach.refl _) s1) s2

lemma demoReachErrE : ConnReach demoErrB demoErrE := by
  have s3 : ConnStep demoErrB demoErrC := by
    have h := ConnStep.awaitErr demoErrB (0 : Fin 2) "refused" rfl rfl
    have he := @sysState_eq 2
      { demoErrB with callers := Function.update demoErrB.callers 0 (.failed "refused") }
      demoErrC rfl (by intro j; fin_cases j <;> decide)
    exact he ▸ h
  have s4 : ConnStep demoErrC demoErrD := by
    have h := ConnStep.startJoin demoErrC (1 : Fin 2) (by decide) rfl (by decide)
    have he := @sysState_eq 2
      { demoErrC with callers := Function.update demoErrC.callers 1 .waiting }
      demoErrD rfl (by intro j; fin_cases j <;> decide)
    exact he ▸ h
  have s5 : ConnStep demoErrD demoErrE := by
    have h := ConnStep.awaitErr demoErrD (1 : Fin 2) "refused" (by decide) rfl
    have he := @sysState_eq 2
      { demoErrD with callers := Function.update demoErrD.callers 1 (.failed "refused") }
      demoErrE rfl (by intro j; fin_cases j <;> decide)
    exact he ▸ h
  exact ConnReach.tail (ConnReach.tail (ConnReach.tail (ConnReach.refl _) s3) s4) s5

/-- Witness for C8: after the rejected first attempt in `demoReachErrB`,
every later state (here `demoErrE`, where a second caller arrived) keeps
the rejected promise, the attempt count, no cached connection, and both
callers failed with the original error. -/
theorem connectToDatabase_sticky_failure_witness :
    demoErrE.cache.promise = some (.resolvedErr "refused") ∧
    demoErrE.cache.attempts = demoErrB.cache.attempts ∧
    demoErrE.cache.conn = none ∧
    (∀ (i : Fin 2) (h : Nat), demoErrE.callers i ≠ .done h) ∧
    (∀ (i : Fin 2) (e2 : String), demoErrE.callers i = .failed e2 → e2 = "refused") :=
  connectToDatabase_sticky_failure 2 demoErrB demoErrE "refused"
    demoReachErrB rfl demoReachErrE

end DevEvents
